import Mathlib

/-!
Shallow embedding of the progressive multiple-sequence-alignment core of
MSAligner (src/alignment.cpp, class MSAAligner), together with proofs about
the claims of its specification.

Modelling conventions:
* C++ `std::string` sequence data is modelled as `List Char`.
* C++ `double` profile frequencies and distances are modelled as `ℚ`.
  Every concrete run evaluated in this file only produces the dyadic values
  0, 1/2 and 1, on which IEEE doubles compute exactly, so the rational and
  floating-point pipelines agree on those runs.
* C++ `int`/`size_t` scores and indices are modelled as `Int`/`Nat`; no
  arithmetic in the modelled code can overflow on the inputs considered.
* Out-of-range vector accesses that the C++ never performs are modelled
  with `List.getD` defaults; they are unreachable on the modelled runs.
-/

namespace MSAligner

set_option maxRecDepth 40000 in
/-- ASCII uppercase conversion, as performed by `std::toupper` on the
sequence characters handled by the aligner. -/
def toUpperChar (c : Char) : Char :=
  if 97 ≤ c.toNat ∧ c.toNat ≤ 122 then Char.ofNat (c.toNat - 32) else c

/-- The `match_score` constant set by the `MSAAligner` constructor. -/
def matchScore : Int := 2

/-- The `mismatch_score` constant set by the `MSAAligner` constructor. -/
def mismatchScore : Int := -1

/-- The `gap_penalty` constant set by the `MSAAligner` constructor. -/
def gapPenalty : Int := -2

/-- The alphabet `DNA_ALPHABET = "ATCG"`. -/
def dnaAlphabet : List Char := ['A', 'T', 'C', 'G']

/-- Model of `MSAAligner::getAlphabetIndex`: position of the uppercased character in
`DNA_ALPHABET`, `-1` when absent. -/
def getAlphabetIndex (c : Char) : Int :=
  let u := toUpperChar c
  if u = 'A' then 0
  else if u = 'T' then 1
  else if u = 'C' then 2
  else if u = 'G' then 3
  else -1

/-- Model of `MSAAligner::getAlphabetChar`: character of `DNA_ALPHABET` at an index,
`'N'` out of range. -/
def getAlphabetChar (i : Int) : Char :=
  if i = 0 then 'A'
  else if i = 1 then 'T'
  else if i = 2 then 'C'
  else if i = 3 then 'G'
  else 'N'

/-- Substitution score used by `pairwiseAlignment`: case-insensitive match
gives `match_score`, otherwise `mismatch_score`. -/
def subScore (a b : Char) : Int :=
  if toUpperChar a = toUpperChar b then matchScore else mismatchScore

/-- Row 0 of the Needleman-Wunsch matrix: `dp[0][j] = j * gap_penalty`. -/
def nwRow0 (j : Nat) : Int := (j : Int) * gapPenalty

/-- One row of the Needleman-Wunsch matrix from the previous row.
`a` is `seq1[i]`; entry `j+1` is
`max(dp[i][j] + sub(a, seq2[j]), dp[i][j+1] + gap, dp[i+1][j] + gap)`,
and entry `0` is `dp[i][0] + gap` (equal to the `(i+1) * gap_penalty` the
C++ initialisation writes there). -/
def nwRowNext (s2 : List Char) (a : Char) (prev : Nat → Int) : Nat → Int
  | 0 => prev 0 + gapPenalty
  | j + 1 =>
      max (max (prev j + subScore a (s2.getD j 'A'))
               (prev (j + 1) + gapPenalty))
          (nwRowNext s2 a prev j + gapPenalty)

/-- Rows of the Needleman-Wunsch matrix of `seq1` against `seq2`. -/
def nwRows (s1 s2 : List Char) : Nat → Nat → Int
  | 0 => nwRow0
  | i + 1 => nwRowNext s2 (s1.getD i 'A') (nwRows s1 s2 i)

/-- Entry `dp[i][j]` of `MSAAligner::pairwiseAlignment` for `seq1` vs `seq2`. -/
def nwDP (s1 s2 : List Char) (i j : Nat) : Int := nwRows s1 s2 i j

/-- Traceback restricted to row 0 (`i = 0`): only horizontal steps, gaps
into the first output. -/
def tbRow0 (s2 : List Char) : Nat → List Char × List Char
  | 0 => ([], [])
  | j + 1 =>
      let p := tbRow0 s2 j
      (p.1 ++ ['-'], p.2 ++ [s2.getD j 'A'])

/-- Traceback for row `i+1`, given the traceback results `prev` of row `i`.
The guards mirror the C++ loop exactly: prefer the diagonal step when it
reproduces the cell score, then the vertical step, else horizontal.
At column 0 the vertical guard always holds (`dp[i+1][0] = dp[i][0] + gap`
definitionally), so the `([], [])` fallback is dead code. -/
def tbRowNext (s1 s2 : List Char) (i : Nat) (prev : Nat → List Char × List Char) :
    Nat → List Char × List Char
  | 0 =>
      if nwDP s1 s2 (i + 1) 0 = nwDP s1 s2 i 0 + gapPenalty then
        let p := prev 0
        (p.1 ++ [s1.getD i 'A'], p.2 ++ ['-'])
      else ([], [])
  | j + 1 =>
      if nwDP s1 s2 (i + 1) (j + 1) =
          nwDP s1 s2 i j + subScore (s1.getD i 'A') (s2.getD j 'A') then
        let p := prev j
        (p.1 ++ [s1.getD i 'A'], p.2 ++ [s2.getD j 'A'])
      else if nwDP s1 s2 (i + 1) (j + 1) = nwDP s1 s2 i (j + 1) + gapPenalty then
        let p := prev (j + 1)
        (p.1 ++ [s1.getD i 'A'], p.2 ++ ['-'])
      else
        let p := tbRowNext s1 s2 i prev j
        (p.1 ++ ['-'], p.2 ++ [s2.getD j 'A'])

/-- Traceback result for every cell `(i, j)`: the aligned pair the C++
`while` loop builds when started at `(i, j)`. -/
def tbRows (s1 s2 : List Char) : Nat → Nat → List Char × List Char
  | 0 => tbRow0 s2
  | i + 1 => tbRowNext s1 s2 i (tbRows s1 s2 i)

/-- Model of `MSAAligner::pairwiseAlignment`: fill the DP matrix, trace back from
`(m, n)`. -/
def pairwiseAlignment (s1 s2 : List Char) : List Char × List Char :=
  tbRows s1 s2 s1.length s2.length

/-- Model of `struct Sequence` of io.h: a FASTA header and a residue string. -/
structure Sequence where
  header : List Char
  sequence : List Char
deriving DecidableEq

/-- Default-constructed `Sequence`. -/
def Sequence.empty : Sequence := ⟨[], []⟩

/-- Model of `struct Profile` of alignment.h: per-column symbol frequencies, per-column
gap frequencies, length and number of folded-in sequences. -/
structure Profile where
  frequencies : List (List ℚ)
  gap_frequencies : List ℚ
  length : Nat
  num_sequences : Nat
deriving DecidableEq

/-- Default-constructed `Profile()`. -/
def Profile.empty : Profile := ⟨[], [], 0, 0⟩

/-- Column of `createProfile` for one character: a one-hot vector over
`DNA_ALPHABET` when `getAlphabetIndex` is non-negative, all zeros otherwise
(the `base_idx >= 0` guard leaves the zero-initialised column untouched). -/
def createProfileColumn (c : Char) : List ℚ :=
  if 0 ≤ getAlphabetIndex c then
    (List.range 4).map (fun b => if (b : Int) = getAlphabetIndex c then 1 else 0)
  else List.replicate 4 0

/-- Model of `MSAAligner::createProfile`: one-hot profile of a single sequence;
`'-'` positions get gap frequency 1 and no symbol frequency. -/
def createProfile (s : List Char) : Profile where
  frequencies := s.map (fun c => if c = '-' then List.replicate 4 0 else createProfileColumn c)
  gap_frequencies := s.map (fun c => if c = '-' then 1 else 0)
  length := s.length
  num_sequences := 1

/-- One step of the consensus loop body: keep the running
`(best_char, best_freq)` unless `frequencies[pos][base] > best_freq`. -/
def consensusStep (col : List ℚ) (acc : Char × ℚ) (base : Nat) : Char × ℚ :=
  if col.getD base 0 > acc.2 then (getAlphabetChar base, col.getD base 0) else acc

/-- Consensus character of one profile column: the loop of
`alignProfiles`/`profileToSequences` over `base = 0..ALPHABET_SIZE-1`
starting from `('A', 0.0)`, updating on strictly greater frequency. -/
def consensusChar (col : List ℚ) : Char :=
  ((List.range 4).foldl (consensusStep col) ('A', 0)).1

/-- Consensus string of a profile, as computed inline (identically) by
`alignProfiles`, `alignSequenceToProfile` and `profileToSequences`. -/
def consensus (p : Profile) : List Char :=
  (List.range p.length).map (fun pos => consensusChar (p.frequencies.getD pos []))

/-- Pointwise sum of two frequency columns. -/
def addCols (a b : List ℚ) : List ℚ := List.zipWith (· + ·) a b

/-- Contribution of one source profile at one combined column: the scaled
column frequencies, the scaled gap frequency, and the updated running index,
guarded exactly like the C++ (`char != '-' && pos < profile.length`). -/
def profileContribution (p : Profile) (c : Char) (pos : Nat) : List ℚ × ℚ × Nat :=
  if c ≠ '-' ∧ pos < p.length then
    ((p.frequencies.getD pos (List.replicate 4 0)).map (· * (p.num_sequences : ℚ)),
     p.gap_frequencies.getD pos 0 * (p.num_sequences : ℚ),
     pos + 1)
  else (List.replicate 4 0, 0, pos)

/-- The column-combination loop of `alignProfiles`, walking the aligned
consensus pair while advancing `pos1`/`pos2`, normalising each column by the
combined sequence count. -/
def alignProfilesLoop (p1 p2 : Profile) (num : ℚ) :
    List (Char × Char) → Nat → Nat → List (List ℚ) × List ℚ
  | [], _, _ => ([], [])
  | (c1, c2) :: rest, pos1, pos2 =>
      let t1 := profileContribution p1 c1 pos1
      let t2 := profileContribution p2 c2 pos2
      let col := (addCols t1.1 t2.1).map (· / num)
      let g := (t1.2.1 + t2.2.1) / num
      let acc := alignProfilesLoop p1 p2 num rest t1.2.2 t2.2.2
      (col :: acc.1, g :: acc.2)

/-- Model of `MSAAligner::alignProfiles`: align the two consensus strings pairwise and
additively merge the scaled columns, then normalise. -/
def alignProfiles (p1 p2 : Profile) : Profile :=
  let ap := pairwiseAlignment (consensus p1) (consensus p2)
  let num := p1.num_sequences + p2.num_sequences
  let acc := alignProfilesLoop p1 p2 (num : ℚ) (ap.1.zip ap.2) 0 0
  { frequencies := acc.1
    gap_frequencies := acc.2
    length := ap.1.length
    num_sequences := num }

/-- Case-insensitive positional match count over the common overlap, as in
the `for (i < min_length)` loop of `calculateSequenceDistance`. -/
def countMatches (s1 s2 : List Char) : Nat :=
  ((s1.zip s2).filter (fun p => toUpperChar p.1 = toUpperChar p.2)).length

/-- Model of `MSAAligner::calculateSequenceDistance`: 1.0 on an empty input, else
`1 - matches / max_length`. -/
def calculateSequenceDistance (s1 s2 : List Char) : ℚ :=
  if s1 = [] ∨ s2 = [] then 1
  else if min s1.length s2.length = 0 then 1
  else 1 - (countMatches s1 s2 : ℚ) / (max s1.length s2.length : ℚ)

/-- Model of `MSAAligner::calculateDistanceMatrix` as an entry function: the matrix is
zero-initialised, and for each `i < j` the entries `(i, j)` and `(j, i)` are
both set to `calculateSequenceDistance(sequences[i], sequences[j])`. -/
def calculateDistanceMatrix (seqs : List Sequence) (i j : Nat) : ℚ :=
  if i < j then
    calculateSequenceDistance (seqs.getD i Sequence.empty).sequence
      (seqs.getD j Sequence.empty).sequence
  else if j < i then
    calculateSequenceDistance (seqs.getD j Sequence.empty).sequence
      (seqs.getD i Sequence.empty).sequence
  else 0

/-- Model of `struct TreeNode` as the two shapes `buildGuideTree` actually creates:
a leaf (non-negative `id`, no children) or an internal node (`id = -1`,
both children present, a merge distance). -/
inductive GTree where
  | leaf (id : Nat)
  | node (distance : ℚ) (left : GTree) (right : GTree)
deriving DecidableEq

/-- The `sequences` member of a `TreeNode`: `[i]` at a leaf, and the
concatenation of the children's members at an internal node, exactly as
`buildGuideTree` maintains it. -/
def GTree.seqs : GTree → List Nat
  | .leaf i => [i]
  | .node _ l r => l.seqs ++ r.seqs

/-- The constant `DBL_MAX`, the initial value of `min_distance` in the closest-pair scan;
the numeral is `2 ^ 1024 - 2 ^ 971`, written out so that it evaluates without
deep unary exponentiation. -/
def dblMax : ℚ :=
  179769313486231570814527423731704356798070567525844996598917476803157260780028538760589558632766878171540458953514382464234321326889464182768467546703537516986049910576551282076245490090389328944075868508455133942304583236903222948165808559332123348274797826204144723168738177180919299881250404026184124858368

/-- Row-major list of index pairs `(i, j)` with `i < j < n`, the iteration
order of the closest-pair scan. -/
def pairList (n : Nat) : List (Nat × Nat) :=
  (List.range n).flatMap (fun i => ((List.range n).drop (i + 1)).map (fun j => (i, j)))

/-- UPGMA average linkage between two active nodes: the sum of the original
distances over both member sets, divided by the product of their sizes. -/
def linkage (dm : Nat → Nat → ℚ) (a b : GTree) : ℚ :=
  ((a.seqs.map (fun si => ((b.seqs.map (fun sj => dm si sj)).sum))).sum) /
    ((a.seqs.length : ℚ) * (b.seqs.length : ℚ))

/-- The closest-pair scan: fold over all pairs in row-major order, starting
from `(min_i, min_j, min_distance) = (0, 1, DBL_MAX)`, updating on strictly
smaller average linkage. -/
def selectMinPair (dm : Nat → Nat → ℚ) (nodes : List GTree) : Nat × Nat × ℚ :=
  (pairList nodes.length).foldl
    (fun acc p =>
      let d := linkage dm (nodes.getD p.1 (GTree.leaf 0)) (nodes.getD p.2 (GTree.leaf 0))
      if d < acc.2.2 then (p.1, p.2, d) else acc)
    (0, 1, dblMax)

/-- One iteration of the UPGMA `while` loop: select the closest pair
`(min_i, min_j)` with `min_i < min_j`, build the internal node with half the
selected distance, erase index `min_j` then index `min_i`, append the new
node at the back. -/
def upgmaStep (dm : Nat → Nat → ℚ) (nodes : List GTree) : List GTree :=
  let sel := selectMinPair dm nodes
  let merged := GTree.node (sel.2.2 / 2)
    (nodes.getD sel.1 (GTree.leaf 0)) (nodes.getD sel.2.1 (GTree.leaf 0))
  ((nodes.eraseIdx sel.2.1).eraseIdx sel.1) ++ [merged]

/-- The UPGMA `while (nodes.size() > 1)` loop, with fuel bounding the number
of iterations (the initial node count suffices: each step removes one). -/
def upgmaLoop (dm : Nat → Nat → ℚ) : Nat → List GTree → List GTree
  | 0, nodes => nodes
  | f + 1, nodes => if 1 < nodes.length then upgmaLoop dm f (upgmaStep dm nodes) else nodes

/-- Model of `MSAAligner::buildGuideTree`: one leaf per input index, UPGMA merge loop,
root of the surviving node (`nullptr`, i.e. `none`, only when there are no
sequences). -/
def buildGuideTree (seqs : List Sequence) (dm : Nat → Nat → ℚ) : Option GTree :=
  (upgmaLoop dm seqs.length ((List.range seqs.length).map GTree.leaf)).head?

/-- Model of `MSAAligner::progressiveAlignment` on a non-null node: a leaf becomes the
profile of its single sequence, an internal node merges its children. -/
def progressiveAlignment (seqs : List Sequence) : GTree → Profile
  | .leaf i => createProfile (seqs.getD i Sequence.empty).sequence
  | .node _ l r => alignProfiles (progressiveAlignment seqs l) (progressiveAlignment seqs r)

/-- Model of `MSAAligner::progressiveAlignment` including the `!node` guard returning
a default `Profile()`. -/
def progressiveAlignmentOpt (seqs : List Sequence) : Option GTree → Profile
  | none => Profile.empty
  | some t => progressiveAlignment seqs t

/-- Model of `MSAAligner::profileToSequences`: every original sequence is realigned
pairwise against the profile consensus (recomputed identically for each
sequence in the C++ loop) and the first half of that alignment is the output;
the `sequence_order` argument is unused by the source. -/
def profileToSequences (p : Profile) (seqs : List Sequence) : List Sequence :=
  seqs.map (fun s => ⟨s.header, (pairwiseAlignment s.sequence (consensus p)).1⟩)

/-- The final profile of a run: distance matrix, guide tree, progressive
alignment. -/
def finalProfile (seqs : List Sequence) : Profile :=
  progressiveAlignmentOpt seqs (buildGuideTree seqs (calculateDistanceMatrix seqs))

/-- Model of `MSAAligner::alignSequences`: with fewer than 2 sequences print an error
and return the input unchanged; otherwise run the full pipeline and project
the final profile back to aligned sequences. -/
def alignSequences (seqs : List Sequence) : List Sequence :=
  if seqs.length < 2 then seqs
  else profileToSequences (finalProfile seqs) seqs

/-- The `final_length` statistic: the length of the first aligned sequence
(0 when there are none, since the statistic is reset to 0 first). -/
def finalLength (aligned : List Sequence) : Nat :=
  ((aligned.headD Sequence.empty).sequence).length

/-- Column probability mass of a profile: symbol frequencies plus gap
frequency, the quantity the §3 profile invariant constrains. -/
def columnMass (p : Profile) (pos : Nat) : ℚ :=
  (p.frequencies.getD pos []).sum + p.gap_frequencies.getD pos 0

/-- Gap stripping: remove every `'-'` from an aligned sequence. -/
def removeGaps (s : List Char) : List Char := s.filter (fun c => c ≠ '-')

/-- Relation stating that `t` is `s` with some `'-'` characters inserted: every character of `s`
appears exactly once, in its original order, interspersed only with gaps. -/
inductive IsGapPadding : List Char → List Char → Prop where
  | nil : IsGapPadding [] []
  | keep {s t : List Char} (c : Char) : IsGapPadding s t → IsGapPadding (s ++ [c]) (t ++ [c])
  | gap {s t : List Char} : IsGapPadding s t → IsGapPadding s (t ++ ['-'])

/-- Index-wise match count, written independently from the claim text:
the number of indices `i < min_len` whose characters match
case-insensitively. -/
def specMatches (s1 s2 : List Char) : Nat :=
  ((List.range (min s1.length s2.length)).filter
    (fun i => toUpperChar (s1.getD i 'A') = toUpperChar (s2.getD i 'A'))).length

/-- Number of leaf nodes of a guide tree. -/
def GTree.leafCount : GTree → Nat
  | .leaf _ => 1
  | .node _ l r => l.leafCount + r.leafCount

/-- Number of internal nodes of a guide tree. -/
def GTree.internalCount : GTree → Nat
  | .leaf _ => 0
  | .node _ l r => l.internalCount + r.internalCount + 1

/-! ### Brute-force enumeration of global alignments

The reference notion of a global alignment for the optimality claim: a list
of columns, each holding a character of each string or a gap marker
(`none`). Scoring follows the fixed constants: a two-character column scores
the substitution score, any column with a gap scores the gap penalty. -/

/-- Score of one alignment column. -/
def colScore : Option Char × Option Char → Int
  | (some a, some b) => subScore a b
  | _ => gapPenalty

/-- Total score of a brute-force alignment. -/
def alnScore (l : List (Option Char × Option Char)) : Int := (l.map colScore).sum

/-- All global alignments of the length-`i` front part of `seq1` against the
length-`j` front part of `seq2`: each alignment ends in a diagonal, vertical
or horizontal column. -/
def allAligns (s1 s2 : List Char) : Nat → Nat → List (List (Option Char × Option Char))
  | 0, 0 => [[]]
  | 0, j + 1 => (allAligns s1 s2 0 j).map (fun l => l ++ [(none, some (s2.getD j 'A'))])
  | i + 1, 0 => (allAligns s1 s2 i 0).map (fun l => l ++ [(some (s1.getD i 'A'), none)])
  | i + 1, j + 1 =>
      ((allAligns s1 s2 i j).map
        (fun l => l ++ [(some (s1.getD i 'A'), some (s2.getD j 'A'))])) ++
      ((allAligns s1 s2 i (j + 1)).map (fun l => l ++ [(some (s1.getD i 'A'), none)])) ++
      ((allAligns s1 s2 (i + 1) j).map (fun l => l ++ [(none, some (s2.getD j 'A'))]))
termination_by i j => (i, j)

/-- Concrete two-sequence run exhibiting outputs of different lengths. -/
def runA : List Sequence := [⟨['a'], ['A', 'A', 'T', 'C']⟩, ⟨['b'], ['T', 'C', 'T']⟩]

/-- Concrete two-sequence run whose merged profile loses probability mass. -/
def runB : List Sequence := [⟨['a'], ['A']⟩, ⟨['b'], ['A', 'T']⟩]

/-- Concrete one-sequence input for the insufficient-input guard. -/
def runC : List Sequence := [⟨['x'], ['A', 'C', 'G']⟩]

/-- Concrete run whose first residue string already contains a gap. -/
def runD : List Sequence := [⟨['a'], ['A', '-']⟩, ⟨['b'], ['A', 'A']⟩]

/-! ### Basic facts about the DP matrix and the traceback -/

theorem nwDP_zero_left (s1 s2 : List Char) (j : Nat) :
    nwDP s1 s2 0 j = (j : Int) * gapPenalty := rfl

theorem nwDP_succ_zero (s1 s2 : List Char) (i : Nat) :
    nwDP s1 s2 (i + 1) 0 = nwDP s1 s2 i 0 + gapPenalty := rfl

theorem nwDP_succ_succ (s1 s2 : List Char) (i j : Nat) :
    nwDP s1 s2 (i + 1) (j + 1) =
      max (max (nwDP s1 s2 i j + subScore (s1.getD i 'A') (s2.getD j 'A'))
               (nwDP s1 s2 i (j + 1) + gapPenalty))
          (nwDP s1 s2 (i + 1) j + gapPenalty) := rfl

theorem IsGapPadding.length_le {s t : List Char} (h : IsGapPadding s t) :
    s.length ≤ t.length := by
  induction h with
  | nil => exact Nat.le_refl 0
  | keep c _ ih => simpa using Nat.add_le_add_right ih 1
  | gap _ ih => simp only [List.length_append, List.length_singleton]; omega

theorem IsGapPadding.removeGaps_eq {s t : List Char} (h : IsGapPadding s t)
    (hs : '-' ∉ s) : removeGaps t = s := by
  induction h with
  | nil => rfl
  | keep c hst ih =>
      have hc : c ≠ '-' := fun hcq => hs (by simp [hcq])
      have hs2 : '-' ∉ _ := fun hm => hs (List.mem_append_left _ hm)
      unfold removeGaps at ih ⊢
      rw [List.filter_append, ih hs2]
      simp [hc]
  | gap hst ih =>
      unfold removeGaps at ih ⊢
      rw [List.filter_append, ih hs]
      simp

theorem take_succ_getD {s : List Char} {i : Nat} (h : i < s.length) :
    s.take (i + 1) = s.take i ++ [s.getD i 'A'] := by
  rw [List.take_succ, List.getD_eq_getElem?_getD, List.getElem?_eq_getElem h]
  rfl

/-! Unfolding equations for the traceback, phrased directly in terms of
`tbRows`. -/

theorem tbRows_zero_zero (s1 s2 : List Char) : tbRows s1 s2 0 0 = ([], []) := rfl

theorem tbRows_zero_succ (s1 s2 : List Char) (j : Nat) :
    tbRows s1 s2 0 (j + 1) =
      ((tbRows s1 s2 0 j).1 ++ ['-'], (tbRows s1 s2 0 j).2 ++ [s2.getD j 'A']) := rfl

theorem tbRows_succ_zero (s1 s2 : List Char) (i : Nat) :
    tbRows s1 s2 (i + 1) 0 =
      ((tbRows s1 s2 i 0).1 ++ [s1.getD i 'A'], (tbRows s1 s2 i 0).2 ++ ['-']) := by
  show tbRowNext s1 s2 i (tbRows s1 s2 i) 0 = _
  rw [tbRowNext, if_pos (nwDP_succ_zero s1 s2 i)]

theorem tbRows_succ_succ (s1 s2 : List Char) (i j : Nat) :
    tbRows s1 s2 (i + 1) (j + 1) =
      if nwDP s1 s2 (i + 1) (j + 1) =
          nwDP s1 s2 i j + subScore (s1.getD i 'A') (s2.getD j 'A') then
        ((tbRows s1 s2 i j).1 ++ [s1.getD i 'A'], (tbRows s1 s2 i j).2 ++ [s2.getD j 'A'])
      else if nwDP s1 s2 (i + 1) (j + 1) = nwDP s1 s2 i (j + 1) + gapPenalty then
        ((tbRows s1 s2 i (j + 1)).1 ++ [s1.getD i 'A'], (tbRows s1 s2 i (j + 1)).2 ++ ['-'])
      else
        ((tbRows s1 s2 (i + 1) j).1 ++ ['-'], (tbRows s1 s2 (i + 1) j).2 ++ [s2.getD j 'A']) :=
  rfl

/-- The traceback invariant: at every in-range cell `(i, j)` the two built
strings have equal length, the first is the length-`i` front part of `seq1`
padded with gaps, and the second the length-`j` front part of `seq2`. -/
theorem tbRows_invariant (s1 s2 : List Char) :
    ∀ i j, i ≤ s1.length → j ≤ s2.length →
      (tbRows s1 s2 i j).1.length = (tbRows s1 s2 i j).2.length ∧
      IsGapPadding (s1.take i) (tbRows s1 s2 i j).1 ∧
      IsGapPadding (s2.take j) (tbRows s1 s2 i j).2 := by
  intro i
  induction i with
  | zero =>
      intro j _ hj
      induction j with
      | zero => exact ⟨rfl, .nil, .nil⟩
      | succ j ihj =>
          have hj' : j ≤ s2.length := Nat.le_of_succ_le hj
          obtain ⟨hl, hp1, hp2⟩ := ihj hj'
          rw [tbRows_zero_succ]
          refine ⟨by simp [hl], IsGapPadding.gap hp1, ?_⟩
          rw [take_succ_getD hj]
          exact IsGapPadding.keep _ hp2
  | succ i ihi =>
      intro j hi hj
      have hi' : i ≤ s1.length := Nat.le_of_succ_le hi
      induction j with
      | zero =>
          obtain ⟨hl, hp1, hp2⟩ := ihi 0 hi' (Nat.zero_le _)
          rw [tbRows_succ_zero]
          refine ⟨by simp [hl], ?_, IsGapPadding.gap hp2⟩
          rw [take_succ_getD hi]
          exact IsGapPadding.keep _ hp1
      | succ j ihj =>
          have hj' : j ≤ s2.length := Nat.le_of_succ_le hj
          rw [tbRows_succ_succ]
          by_cases h1 : nwDP s1 s2 (i + 1) (j + 1) =
              nwDP s1 s2 i j + subScore (s1.getD i 'A') (s2.getD j 'A')
          · obtain ⟨hl, hp1, hp2⟩ := ihi j hi' hj'
            rw [if_pos h1]
            refine ⟨by simp [hl], ?_, ?_⟩
            · rw [take_succ_getD hi]
              exact IsGapPadding.keep _ hp1
            · rw [take_succ_getD hj]
              exact IsGapPadding.keep _ hp2
          · rw [if_neg h1]
            by_cases h2 : nwDP s1 s2 (i + 1) (j + 1) = nwDP s1 s2 i (j + 1) + gapPenalty
            · obtain ⟨hl, hp1, hp2⟩ := ihi (j + 1) hi' hj
              rw [if_pos h2]
              refine ⟨by simp [hl], ?_, IsGapPadding.gap hp2⟩
              rw [take_succ_getD hi]
              exact IsGapPadding.keep _ hp1
            · obtain ⟨hl, hp1, hp2⟩ := ihj hj'
              rw [if_neg h2]
              refine ⟨by simp [hl], IsGapPadding.gap hp1, ?_⟩
              rw [take_succ_getD hj]
              exact IsGapPadding.keep _ hp2

/-- The invariant specialised to the cell the C++ actually starts from. -/
theorem pairwiseAlignment_invariant (s1 s2 : List Char) :
    (pairwiseAlignment s1 s2).1.length = (pairwiseAlignment s1 s2).2.length ∧
    IsGapPadding s1 (pairwiseAlignment s1 s2).1 ∧
    IsGapPadding s2 (pairwiseAlignment s1 s2).2 := by
  have h := tbRows_invariant s1 s2 s1.length s2.length (Nat.le_refl _) (Nat.le_refl _)
  simpa [pairwiseAlignment, List.take_length] using h

theorem pairwiseAlignment_fst_length_ge (s1 s2 : List Char) :
    s2.length ≤ (pairwiseAlignment s1 s2).1.length := by
  obtain ⟨hl, _, hp2⟩ := pairwiseAlignment_invariant s1 s2
  exact hl ▸ hp2.length_le

theorem removeGaps_pairwiseAlignment_fst (s1 s2 : List Char) (h : '-' ∉ s1) :
    removeGaps (pairwiseAlignment s1 s2).1 = s1 :=
  (pairwiseAlignment_invariant s1 s2).2.1.removeGaps_eq h

/-! ### Facts about the distance estimator -/

theorem countMatches_comm (s1 s2 : List Char) : countMatches s1 s2 = countMatches s2 s1 := by
  induction s1 generalizing s2 with
  | nil => cases s2 <;> rfl
  | cons a as ih =>
      cases s2 with
      | nil => rfl
      | cons b bs =>
          simp only [countMatches, List.zip_cons_cons, List.filter_cons] at *
          by_cases hab : toUpperChar a = toUpperChar b
          · simp [hab, ih bs]
          · have hba : ¬ toUpperChar b = toUpperChar a := fun hq => hab hq.symm
            simp [hab, hba, ih bs]

theorem countMatches_le_min (s1 s2 : List Char) :
    countMatches s1 s2 ≤ min s1.length s2.length := by
  calc countMatches s1 s2 ≤ (s1.zip s2).length := List.length_filter_le _ _
    _ = min s1.length s2.length := List.length_zip s1 s2

theorem countMatches_self (s : List Char) : countMatches s s = s.length := by
  induction s with
  | nil => rfl
  | cons a as ih => simp [countMatches, List.filter_cons] at *; simp [ih]

theorem countMatches_eq_specMatches (s1 s2 : List Char) :
    countMatches s1 s2 = specMatches s1 s2 := by
  induction s1 generalizing s2 with
  | nil => simp [countMatches, specMatches]
  | cons a as ih =>
      cases s2 with
      | nil => simp [countMatches, specMatches]
      | cons b bs =>
          have hmin : min (a :: as).length (b :: bs).length =
              min as.length bs.length + 1 := by
            simp [List.length_cons, Nat.succ_min_succ]
          simp only [countMatches, specMatches, List.zip_cons_cons, List.filter_cons,
            hmin, List.range_succ_eq_map, List.filter_map]
          by_cases hab : toUpperChar a = toUpperChar b
          · simpa [hab, Function.comp_def, specMatches] using ih bs
          · simpa [hab, Function.comp_def, specMatches] using ih bs

theorem calculateSequenceDistance_nonempty (s1 s2 : List Char)
    (h1 : s1 ≠ []) (h2 : s2 ≠ []) :
    calculateSequenceDistance s1 s2 =
      1 - (countMatches s1 s2 : ℚ) / (max s1.length s2.length : ℚ) := by
  have hmin : min s1.length s2.length ≠ 0 := by
    simp [Nat.min_eq_zero_iff, List.length_eq_zero]
    exact ⟨h1, h2⟩
  simp [calculateSequenceDistance, h1, h2, hmin]

theorem calculateSequenceDistance_mem_unit (s1 s2 : List Char) :
    0 ≤ calculateSequenceDistance s1 s2 ∧ calculateSequenceDistance s1 s2 ≤ 1 := by
  by_cases h : s1 = [] ∨ s2 = []
  · simp [calculateSequenceDistance, h]
  · push_neg at h
    rw [calculateSequenceDistance_nonempty s1 s2 h.1 h.2]
    have hmaxpos : (0 : ℚ) < (max s1.length s2.length : ℚ) := by
      have : s1.length ≠ 0 := by simpa [List.length_eq_zero] using h.1
      have : 0 < max s1.length s2.length := by omega
      exact_mod_cast this
    have hle : (countMatches s1 s2 : ℚ) ≤ (max s1.length s2.length : ℚ) := by
      have h1 : countMatches s1 s2 ≤ min s1.length s2.length := countMatches_le_min s1 s2
      have h2 : min s1.length s2.length ≤ max s1.length s2.length := by omega
      exact_mod_cast Nat.le_trans h1 h2
    have hfrac0 : (0 : ℚ) ≤ (countMatches s1 s2 : ℚ) / (max s1.length s2.length : ℚ) :=
      div_nonneg (by positivity) (le_of_lt hmaxpos)
    have hfrac1 : (countMatches s1 s2 : ℚ) / (max s1.length s2.length : ℚ) ≤ 1 :=
      (div_le_one hmaxpos).mpr hle
    constructor <;> linarith

theorem calculateSequenceDistance_comm (s1 s2 : List Char) :
    calculateSequenceDistance s1 s2 = calculateSequenceDistance s2 s1 := by
  unfold calculateSequenceDistance
  rw [countMatches_comm, Nat.min_comm, max_comm ((s1.length : ℚ)) ((s2.length : ℚ))]
  simp only [or_comm]

/-! ### Facts about leaf profiles -/

theorem getD_map_lt {α β : Type} (f : α → β) {s : List α} {pos : Nat}
    (h : pos < s.length) (d : β) (d' : α) : (s.map f).getD pos d = f (s.getD pos d') := by
  rw [List.getD_eq_getElem?_getD, List.getElem?_eq_getElem (by simpa using h),
    List.getElem_map, List.getD_eq_getElem?_getD, List.getElem?_eq_getElem h]
  rfl

theorem createProfile_frequencies_getD {s : List Char} {pos : Nat} (h : pos < s.length) :
    (createProfile s).frequencies.getD pos [] =
      (if s.getD pos 'A' = '-' then List.replicate 4 0 else createProfileColumn (s.getD pos 'A')) := by
  unfold createProfile
  exact getD_map_lt _ h [] 'A'

theorem createProfile_gap_getD {s : List Char} {pos : Nat} (h : pos < s.length) :
    (createProfile s).gap_frequencies.getD pos 0 =
      (if s.getD pos 'A' = '-' then 1 else 0) := by
  unfold createProfile
  exact getD_map_lt _ h 0 'A'

theorem getAlphabetIndex_neg_of_not_mem {c : Char} (h : toUpperChar c ∉ dnaAlphabet) :
    getAlphabetIndex c = -1 := by
  simp only [dnaAlphabet, List.mem_cons, List.not_mem_nil, or_false, not_or] at h
  obtain ⟨hA, hT, hC, hG⟩ := h
  simp [getAlphabetIndex, hA, hT, hC, hG]

theorem columnMass_createProfile_of_unknown (s : List Char) (pos : Nat)
    (h : pos < s.length) (hdash : s.getD pos 'A' ≠ '-')
    (hout : toUpperChar (s.getD pos 'A') ∉ dnaAlphabet) :
    getAlphabetIndex (s.getD pos 'A') = -1 ∧
    (createProfile s).frequencies.getD pos [] = [0, 0, 0, 0] ∧
    (createProfile s).gap_frequencies.getD pos 0 = 0 ∧
    columnMass (createProfile s) pos = 0 := by
  have hidx := getAlphabetIndex_neg_of_not_mem hout
  have hfreq : (createProfile s).frequencies.getD pos [] = [0, 0, 0, 0] := by
    rw [createProfile_frequencies_getD h, if_neg hdash, createProfileColumn, hidx]
    norm_num [List.replicate]
  have hgap : (createProfile s).gap_frequencies.getD pos 0 = 0 := by
    rw [createProfile_gap_getD h, if_neg hdash]
  refine ⟨hidx, hfreq, hgap, ?_⟩
  rw [columnMass, hfreq, hgap]
  norm_num

theorem columnMass_createProfile_of_alpha (s : List Char) (pos : Nat)
    (h : pos < s.length)
    (halpha : s.getD pos 'A' = '-' ∨ toUpperChar (s.getD pos 'A') ∈ dnaAlphabet) :
    columnMass (createProfile s) pos = 1 := by
  rw [columnMass, createProfile_frequencies_getD h, createProfile_gap_getD h]
  rcases halpha with hdash | hmem
  · rw [if_pos hdash, if_pos hdash]
    norm_num [List.replicate]
  · have hdash : s.getD pos 'A' ≠ '-' := by
      intro hq
      rw [hq] at hmem
      revert hmem
      decide
    rw [if_neg hdash, if_neg hdash]
    simp only [dnaAlphabet, List.mem_cons, List.not_mem_nil, or_false] at hmem
    rcases hmem with hc | hc | hc | hc <;>
      · rw [createProfileColumn, getAlphabetIndex, hc]
        with_unfolding_all decide

/-! ### Shape of the UPGMA guide tree -/

theorem mem_drop_range {k n j : Nat} (h : j ∈ (List.range n).drop k) : k ≤ j ∧ j < n := by
  refine ⟨?_, by simpa using List.mem_of_mem_drop h⟩
  by_cases hk : k ≤ n
  · have hsplit : List.range n = List.range k ++ (List.range (n - k)).map (k + ·) := by
      rw [← List.range_add, Nat.add_sub_cancel' hk]
    rw [hsplit, List.drop_left' (List.length_range k)] at h
    obtain ⟨i, _, rfl⟩ := List.mem_map.mp h
    omega
  · rw [List.drop_of_length_le (by simpa using Nat.le_of_not_le hk)] at h
    cases h

theorem pairList_mem {n : Nat} {p : Nat × Nat} (h : p ∈ pairList n) :
    p.1 < p.2 ∧ p.2 < n := by
  unfold pairList at h
  rw [List.mem_flatMap] at h
  obtain ⟨i, _, hmap⟩ := h
  obtain ⟨j, hj, rfl⟩ := List.mem_map.mp hmap
  obtain ⟨h1, h2⟩ := mem_drop_range hj
  exact ⟨by omega, h2⟩

theorem selectMinPair_foldl_valid {n : Nat} (f : Nat × Nat → ℚ) :
    ∀ (ps : List (Nat × Nat)) (acc : Nat × Nat × ℚ),
      (∀ p ∈ ps, p.1 < p.2 ∧ p.2 < n) → acc.1 < acc.2.1 → acc.2.1 < n →
      (ps.foldl (fun acc p => if f p < acc.2.2 then (p.1, p.2, f p) else acc) acc).1 <
        (ps.foldl (fun acc p => if f p < acc.2.2 then (p.1, p.2, f p) else acc) acc).2.1 ∧
      (ps.foldl (fun acc p => if f p < acc.2.2 then (p.1, p.2, f p) else acc) acc).2.1 < n := by
  intro ps
  induction ps with
  | nil => intro acc _ h1 h2; exact ⟨h1, h2⟩
  | cons q qs ih =>
      intro acc hps h1 h2
      simp only [List.foldl_cons]
      have hq := hps q (List.mem_cons_self q qs)
      have hqs : ∀ p ∈ qs, p.1 < p.2 ∧ p.2 < n :=
        fun p hp => hps p (List.mem_cons_of_mem q hp)
      by_cases hlt : f q < acc.2.2
      · rw [if_pos hlt]
        exact ih _ hqs hq.1 hq.2
      · rw [if_neg hlt]
        exact ih _ hqs h1 h2

theorem selectMinPair_valid (dm : Nat → Nat → ℚ) (nodes : List GTree)
    (h : 2 ≤ nodes.length) :
    (selectMinPair dm nodes).1 < (selectMinPair dm nodes).2.1 ∧
    (selectMinPair dm nodes).2.1 < nodes.length := by
  unfold selectMinPair
  exact selectMinPair_foldl_valid
    (fun p => linkage dm (nodes.getD p.1 (GTree.leaf 0)) (nodes.getD p.2 (GTree.leaf 0)))
    (pairList nodes.length) (0, 1, dblMax)
    (fun p hp => pairList_mem hp) (by norm_num) (by simp only []; omega)

theorem sum_map_eraseIdx (f : GTree → Nat) (l : List GTree) (k : Nat)
    (h : k < l.length) :
    (l.map f).sum = f (l.getD k (GTree.leaf 0)) + ((l.eraseIdx k).map f).sum := by
  induction l generalizing k with
  | nil => cases h
  | cons a as ih =>
      cases k with
      | zero => simp [List.eraseIdx]
      | succ k =>
          have hk : k < as.length := by simpa using h
          simp only [List.map_cons, List.sum_cons, List.eraseIdx]
          rw [ih k hk]
          have hgetD : (a :: as).getD (k + 1) (GTree.leaf 0) = as.getD k (GTree.leaf 0) := rfl
          rw [hgetD]
          omega

theorem getD_eraseIdx_lt (l : List GTree) (i j : Nat) (hij : i < j) :
    (l.eraseIdx j).getD i (GTree.leaf 0) = l.getD i (GTree.leaf 0) := by
  induction l generalizing i j with
  | nil => simp [List.eraseIdx]
  | cons a as ih =>
      cases j with
      | zero => cases hij
      | succ j =>
          cases i with
          | zero => rfl
          | succ i => exact ih i j (by omega)

theorem step_shape {l : List GTree} {i j : Nat} (hij : i < j) (hj : j < l.length) (d : ℚ) :
    ((((l.eraseIdx j).eraseIdx i) ++
        [GTree.node d (l.getD i (GTree.leaf 0)) (l.getD j (GTree.leaf 0))]).map
      GTree.leafCount).sum = (l.map GTree.leafCount).sum ∧
    ((((l.eraseIdx j).eraseIdx i) ++
        [GTree.node d (l.getD i (GTree.leaf 0)) (l.getD j (GTree.leaf 0))]).map
      GTree.internalCount).sum = (l.map GTree.internalCount).sum + 1 ∧
    (((l.eraseIdx j).eraseIdx i) ++
        [GTree.node d (l.getD i (GTree.leaf 0)) (l.getD j (GTree.leaf 0))]).length =
      l.length - 1 := by
  have h1 := List.length_eraseIdx_of_lt hj
  have h2 : i < (l.eraseIdx j).length := by omega
  have h3 := List.length_eraseIdx_of_lt h2
  refine ⟨?_, ?_, ?_⟩
  case refine_3 =>
    simp only [List.length_append, List.length_cons, List.length_nil, h3, h1]
    omega
  · have hsum1 := sum_map_eraseIdx GTree.leafCount l j hj
    have hsum2 := sum_map_eraseIdx GTree.leafCount (l.eraseIdx j) i h2
    rw [getD_eraseIdx_lt l i j hij] at hsum2
    have hmerged : GTree.leafCount
        (GTree.node d (l.getD i (GTree.leaf 0)) (l.getD j (GTree.leaf 0))) =
        GTree.leafCount (l.getD i (GTree.leaf 0)) +
          GTree.leafCount (l.getD j (GTree.leaf 0)) := rfl
    simp only [List.map_append, List.sum_append, List.map_cons, List.map_nil,
      List.sum_cons, List.sum_nil, hmerged]
    omega
  · have hsum1 := sum_map_eraseIdx GTree.internalCount l j hj
    have hsum2 := sum_map_eraseIdx GTree.internalCount (l.eraseIdx j) i h2
    rw [getD_eraseIdx_lt l i j hij] at hsum2
    have hmerged : GTree.internalCount
        (GTree.node d (l.getD i (GTree.leaf 0)) (l.getD j (GTree.leaf 0))) =
        GTree.internalCount (l.getD i (GTree.leaf 0)) +
          GTree.internalCount (l.getD j (GTree.leaf 0)) + 1 := rfl
    simp only [List.map_append, List.sum_append, List.map_cons, List.map_nil,
      List.sum_cons, List.sum_nil, hmerged]
    omega

theorem upgmaStep_shape (dm : Nat → Nat → ℚ) (nodes : List GTree)
    (h : 2 ≤ nodes.length) :
    ((upgmaStep dm nodes).map GTree.leafCount).sum = (nodes.map GTree.leafCount).sum ∧
    ((upgmaStep dm nodes).map GTree.internalCount).sum =
      (nodes.map GTree.internalCount).sum + 1 ∧
    (upgmaStep dm nodes).length = nodes.length - 1 := by
  obtain ⟨hij, hjn⟩ := selectMinPair_valid dm nodes h
  unfold upgmaStep
  exact step_shape hij hjn _

theorem upgmaLoop_spec (dm : Nat → Nat → ℚ) :
    ∀ (fuel : Nat) (nodes : List GTree), nodes.length ≤ fuel + 1 → 1 ≤ nodes.length →
    ∃ r, upgmaLoop dm fuel nodes = [r] ∧
      r.leafCount = (nodes.map GTree.leafCount).sum ∧
      r.internalCount + 1 = (nodes.map GTree.internalCount).sum + nodes.length := by
  intro fuel
  induction fuel with
  | zero =>
      intro nodes hle hge
      have hlen : nodes.length = 1 := by omega
      obtain ⟨r, rfl⟩ := List.length_eq_one.mp hlen
      exact ⟨r, rfl, by simp, by simp⟩
  | succ fuel ih =>
      intro nodes hle hge
      by_cases h2 : 1 < nodes.length
      · have hstep := upgmaStep_shape dm nodes (by omega)
        obtain ⟨r, hr, hrl, hri⟩ := ih (upgmaStep dm nodes) (by omega) (by omega)
        refine ⟨r, ?_, ?_, ?_⟩
        · rw [upgmaLoop, if_pos h2, hr]
        · rw [hrl, hstep.1]
        · rw [hri, hstep.2.1]
          have := hstep.2.2
          omega
      · have hlen : nodes.length = 1 := by omega
        obtain ⟨r, rfl⟩ := List.length_eq_one.mp hlen
        exact ⟨r, by rw [upgmaLoop, if_neg h2], by simp, by simp⟩

theorem buildGuideTree_shape (seqs : List Sequence) (dm : Nat → Nat → ℚ)
    (h : 1 ≤ seqs.length) :
    ∃ t, buildGuideTree seqs dm = some t ∧
      t.leafCount = seqs.length ∧ t.internalCount + 1 = seqs.length := by
  unfold buildGuideTree
  have hlen : ((List.range seqs.length).map GTree.leaf).length = seqs.length := by simp
  obtain ⟨r, hr, hrl, hri⟩ := upgmaLoop_spec dm seqs.length
    ((List.range seqs.length).map GTree.leaf) (by omega) (by omega)
  rw [hr]
  have hleaf : (((List.range seqs.length).map GTree.leaf).map GTree.leafCount).sum =
      seqs.length := by
    rw [List.map_map]
    have : (GTree.leafCount ∘ GTree.leaf) = fun _ => 1 := rfl
    rw [this, List.map_const', List.sum_replicate, List.length_range, smul_eq_mul,
      Nat.mul_one]
  have hinternal : (((List.range seqs.length).map GTree.leaf).map GTree.internalCount).sum =
      0 := by
    rw [List.map_map]
    have : (GTree.internalCount ∘ GTree.leaf) = fun _ => 0 := rfl
    rw [this, List.map_const', List.sum_replicate, smul_eq_mul, Nat.mul_zero]
  refine ⟨r, rfl, by rw [hrl, hleaf], ?_⟩
  rw [hinternal, hlen] at hri
  omega

theorem alnScore_append_one (l : List (Option Char × Option Char))
    (c : Option Char × Option Char) : alnScore (l ++ [c]) = alnScore l + colScore c := by
  simp [alnScore, List.map_append, List.sum_append]

/-- Bellman optimality of the DP matrix: at every cell, `dp[i][j]` is an
upper bound on the score of every brute-force alignment and is attained by
one of them. -/
theorem nwDP_eq_bruteforce (s1 s2 : List Char) : ∀ k i j, i + j = k →
    (∀ a ∈ allAligns s1 s2 i j, alnScore a ≤ nwDP s1 s2 i j) ∧
    (∃ a ∈ allAligns s1 s2 i j, alnScore a = nwDP s1 s2 i j) := by
  intro k
  induction k using Nat.strong_induction_on with
  | _ k ih =>
    intro i j hij
    match i, j with
    | 0, 0 =>
        refine ⟨?_, ⟨[], by rw [allAligns]; exact List.mem_singleton.mpr rfl, ?_⟩⟩
        · intro a ha
          rw [allAligns] at ha
          rw [List.mem_singleton.mp ha]
          simp [alnScore, nwDP, nwRows, nwRow0]
        · simp [alnScore, nwDP, nwRows, nwRow0]
    | 0, j + 1 =>
        have hdp : nwDP s1 s2 0 (j + 1) = nwDP s1 s2 0 j + gapPenalty := by
          rw [nwDP_zero_left, nwDP_zero_left]
          push_cast
          ring
        obtain ⟨hub, ⟨w, hw, hws⟩⟩ := ih j (by omega) 0 j (Nat.zero_add j)
        constructor
        · intro a ha
          rw [allAligns] at ha
          obtain ⟨x, hx, rfl⟩ := List.mem_map.mp ha
          rw [alnScore_append_one, hdp]
          have := hub x hx
          have hcol : colScore (none, some (s2.getD j 'A')) = gapPenalty := rfl
          omega
        · refine ⟨w ++ [(none, some (s2.getD j 'A'))], ?_, ?_⟩
          · rw [allAligns]
            exact List.mem_map.mpr ⟨w, hw, rfl⟩
          · rw [alnScore_append_one, hdp, hws]
            rfl
    | i + 1, 0 =>
        have hdp : nwDP s1 s2 (i + 1) 0 = nwDP s1 s2 i 0 + gapPenalty :=
          nwDP_succ_zero s1 s2 i
        obtain ⟨hub, ⟨w, hw, hws⟩⟩ := ih i (by omega) i 0 rfl
        constructor
        · intro a ha
          rw [allAligns] at ha
          obtain ⟨x, hx, rfl⟩ := List.mem_map.mp ha
          rw [alnScore_append_one, hdp]
          have := hub x hx
          have hcol : colScore (some (s1.getD i 'A'), none) = gapPenalty := rfl
          omega
        · refine ⟨w ++ [(some (s1.getD i 'A'), none)], ?_, ?_⟩
          · rw [allAligns]
            exact List.mem_map.mpr ⟨w, hw, rfl⟩
          · rw [alnScore_append_one, hdp, hws]
            rfl
    | i + 1, j + 1 =>
        have hdp := nwDP_succ_succ s1 s2 i j
        obtain ⟨hub1, ⟨w1, hw1, hws1⟩⟩ := ih (i + j) (by omega) i j rfl
        obtain ⟨hub2, ⟨w2, hw2, hws2⟩⟩ := ih (i + (j + 1)) (by omega) i (j + 1) rfl
        obtain ⟨hub3, ⟨w3, hw3, hws3⟩⟩ := ih ((i + 1) + j) (by omega) (i + 1) j rfl
        have hcol1 : colScore (some (s1.getD i 'A'), some (s2.getD j 'A')) =
            subScore (s1.getD i 'A') (s2.getD j 'A') := rfl
        have hcol2 : colScore (some (s1.getD i 'A'), none) = gapPenalty := rfl
        have hcol3 : colScore (none, some (s2.getD j 'A')) = gapPenalty := rfl
        constructor
        · intro a ha
          rw [allAligns] at ha
          rcases List.mem_append.mp ha with hd | h3
          · rcases List.mem_append.mp hd with h1 | h2
            · obtain ⟨x, hx, rfl⟩ := List.mem_map.mp h1
              rw [alnScore_append_one, hdp]
              have := hub1 x hx
              rw [hcol1]
              have hle : alnScore x + subScore (s1.getD i 'A') (s2.getD j 'A') ≤
                  nwDP s1 s2 i j + subScore (s1.getD i 'A') (s2.getD j 'A') := by omega
              calc alnScore x + subScore (s1.getD i 'A') (s2.getD j 'A') ≤ _ := hle
                _ ≤ _ := le_max_of_le_left (le_max_left _ _)
            · obtain ⟨x, hx, rfl⟩ := List.mem_map.mp h2
              rw [alnScore_append_one, hdp, hcol2]
              have := hub2 x hx
              have hle : alnScore x + gapPenalty ≤ nwDP s1 s2 i (j + 1) + gapPenalty := by
                omega
              calc alnScore x + gapPenalty ≤ _ := hle
                _ ≤ _ := le_max_of_le_left (le_max_right _ _)
          · obtain ⟨x, hx, rfl⟩ := List.mem_map.mp h3
            rw [alnScore_append_one, hdp, hcol3]
            have := hub3 x hx
            have hle : alnScore x + gapPenalty ≤ nwDP s1 s2 (i + 1) j + gapPenalty := by
              omega
            calc alnScore x + gapPenalty ≤ _ := hle
              _ ≤ _ := le_max_right _ _
        · rcases max_choice (max (nwDP s1 s2 i j + subScore (s1.getD i 'A') (s2.getD j 'A'))
              (nwDP s1 s2 i (j + 1) + gapPenalty)) (nwDP s1 s2 (i + 1) j + gapPenalty) with
            hout | hout
          · rcases max_choice (nwDP s1 s2 i j + subScore (s1.getD i 'A') (s2.getD j 'A'))
                (nwDP s1 s2 i (j + 1) + gapPenalty) with hin | hin
            · refine ⟨w1 ++ [(some (s1.getD i 'A'), some (s2.getD j 'A'))], ?_, ?_⟩
              · rw [allAligns]
                exact List.mem_append.mpr (Or.inl (List.mem_append.mpr (Or.inl
                  (List.mem_map.mpr ⟨w1, hw1, rfl⟩))))
              · rw [alnScore_append_one, hdp, hout, hin, hcol1, hws1]
            · refine ⟨w2 ++ [(some (s1.getD i 'A'), none)], ?_, ?_⟩
              · rw [allAligns]
                exact List.mem_append.mpr (Or.inl (List.mem_append.mpr (Or.inr
                  (List.mem_map.mpr ⟨w2, hw2, rfl⟩))))
              · rw [alnScore_append_one, hdp, hout, hin, hcol2, hws2]
          · refine ⟨w3 ++ [(none, some (s2.getD j 'A'))], ?_, ?_⟩
            · rw [allAligns]
              exact List.mem_append.mpr (Or.inr (List.mem_map.mpr ⟨w3, hw3, rfl⟩))
            · rw [alnScore_append_one, hdp, hout, hcol3, hws3]

/-! ### Plumbing for the end-to-end pipeline -/

theorem getD_mem_of_lt {l : List Char} {pos : Nat} (h : pos < l.length) (d : Char) :
    l.getD pos d ∈ l := by
  rw [List.getD_eq_getElem?_getD, List.getElem?_eq_getElem h]
  simp only [Option.getD_some]
  exact List.getElem_mem h

theorem alignSequences_eq_map {seqs : List Sequence} (h : 2 ≤ seqs.length) :
    alignSequences seqs = seqs.map (fun s =>
      ⟨s.header, (pairwiseAlignment s.sequence (consensus (finalProfile seqs))).1⟩) := by
  unfold alignSequences profileToSequences
  rw [if_neg (by omega)]

theorem calculateSequenceDistance_self (s : List Char) (h : s ≠ []) :
    calculateSequenceDistance s s = 0 := by
  rw [calculateSequenceDistance_nonempty s s h h, countMatches_self]
  have hlen : (0 : ℚ) < (s.length : ℚ) := by
    have : 0 < s.length := List.length_pos.mpr h
    exact_mod_cast this
  simp [div_self (ne_of_gt hlen)]

/-! ### Claims -/

set_option maxRecDepth 100000 in
/-- C1 (counterexample): on the two sequences `AATC` and `TCT` the pipeline
returns aligned strings of lengths 4 and 5, while `final_length` (the length
of the first output) is 4, so the outputs do not all have `final_length`
characters. -/
theorem C1_counterexample :
    2 ≤ runA.length ∧
    (alignSequences runA).map (fun s => s.sequence) =
      [['A', 'A', 'T', 'C'], ['-', '-', 'T', 'C', 'T']] ∧
    finalLength (alignSequences runA) = 4 ∧
    ¬ (∀ s ∈ alignSequences runA, s.sequence.length = finalLength (alignSequences runA)) := by
  with_unfolding_all decide

/-- C1 (amended): for N ≥ 2 input records, `alignSequences` returns N aligned
sequences and every one of them has at least as many characters as the final
profile consensus; the outputs need not all have exactly `final_length`
characters. -/
theorem C1_prop (seqs : List Sequence) (h : 2 ≤ seqs.length) :
    (alignSequences seqs).length = seqs.length ∧
    ∀ s ∈ alignSequences seqs,
      (consensus (finalProfile seqs)).length ≤ s.sequence.length := by
  rw [alignSequences_eq_map h]
  refine ⟨List.length_map _ _, ?_⟩
  intro s hs
  obtain ⟨t, _, rfl⟩ := List.mem_map.mp hs
  exact pairwiseAlignment_fst_length_ge t.sequence (consensus (finalProfile seqs))

/-- C1 (witness): the amended statement applied to the concrete run. -/
theorem C1_witness :
    2 ≤ runA.length ∧
    ((alignSequences runA).length = runA.length ∧
     ∀ s ∈ alignSequences runA,
       (consensus (finalProfile runA)).length ≤ s.sequence.length) :=
  ⟨by decide, C1_prop runA (by decide)⟩

set_option maxRecDepth 40000 in
/-- C2 (counterexample): the merge of the leaf profiles of `A` and `AT` —
the profile produced at the root of the pipeline on that input — has a
column of total probability mass 1/2, far outside the 1e-9 tolerance
around 1. -/
theorem C2_counterexample :
    finalProfile runB = alignProfiles (createProfile ['A']) (createProfile ['A', 'T']) ∧
    columnMass (finalProfile runB) 1 = 1 / 2 ∧
    (1 : ℚ) - columnMass (finalProfile runB) 1 > 1 / 1000000000 := by
  with_unfolding_all decide

/-- C2 (amended): every column of a leaf profile built by `createProfile`
from a string over the DNA alphabet (case-insensitive) and `'-'` has
probability mass exactly 1; merged profiles do not keep this invariant in
general (a column whose consensus alignment places a gap against one profile
loses that profile's mass, as in the counterexample). -/
theorem C2_prop (s : List Char)
    (halpha : ∀ c ∈ s, c = '-' ∨ toUpperChar c ∈ dnaAlphabet)
    (pos : Nat) (hpos : pos < s.length) :
    columnMass (createProfile s) pos = 1 :=
  columnMass_createProfile_of_alpha s pos hpos
    (halpha (s.getD pos 'A') (getD_mem_of_lt hpos 'A'))

/-- C2 (witness): the amended statement applied to the string `AT-G`. -/
theorem C2_witness :
    (∀ c ∈ (['A', 'T', '-', 'G'] : List Char), c = '-' ∨ toUpperChar c ∈ dnaAlphabet) ∧
    (2 < (['A', 'T', '-', 'G'] : List Char).length) ∧
    columnMass (createProfile ['A', 'T', '-', 'G']) 2 = 1 :=
  ⟨by decide, by decide, C2_prop ['A', 'T', '-', 'G'] (by decide) 2 (by decide)⟩

/-- C3 (counterexample): on a single-sequence input `alignSequences` does not
surface a typed `InsufficientInputError` with no result; it returns a normal,
non-empty result, namely the input vector unchanged (the only error signal
is a console message). -/
theorem C3_counterexample :
    alignSequences runC = runC ∧ runC ≠ [] := by
  decide

/-- C3 (amended): when fewer than 2 sequences are supplied, `alignSequences`
performs no alignment and returns its input unchanged after printing an
error message; no typed failure value exists in the code. -/
theorem C3_prop (seqs : List Sequence) (h : seqs.length < 2) :
    alignSequences seqs = seqs := by
  unfold alignSequences
  rw [if_pos h]

/-- C3 (witness): the amended statement applied to the singleton input. -/
theorem C3_witness : runC.length < 2 ∧ alignSequences runC = runC :=
  ⟨by decide, C3_prop runC (by decide)⟩

set_option maxRecDepth 40000 in
/-- C4 (counterexample): when an input residue string itself contains `'-'`
(which the upstream FASTA validator accepts), stripping the gaps from its
aligned output does not reproduce the original string. -/
theorem C4_counterexample :
    2 ≤ runD.length ∧
    removeGaps ((alignSequences runD).getD 0 Sequence.empty).sequence ≠
      (runD.getD 0 Sequence.empty).sequence := by
  with_unfolding_all decide

/-- C4 (amended): for N ≥ 2 input records whose residue strings contain no
`'-'`, stripping all `'-'` characters from the i-th aligned output
reproduces exactly the i-th original residue string. -/
theorem C4_prop (seqs : List Sequence) (i : Nat) (h2 : 2 ≤ seqs.length)
    (hi : i < seqs.length) (hg : '-' ∉ (seqs.getD i Sequence.empty).sequence) :
    removeGaps ((alignSequences seqs).getD i Sequence.empty).sequence =
      (seqs.getD i Sequence.empty).sequence := by
  rw [alignSequences_eq_map h2,
    getD_map_lt (fun s : Sequence =>
      (⟨s.header, (pairwiseAlignment s.sequence (consensus (finalProfile seqs))).1⟩ : Sequence))
      hi Sequence.empty Sequence.empty]
  exact removeGaps_pairwiseAlignment_fst _ _ hg

/-- C4 (witness): the amended statement applied to the gap-free concrete
run at index 1. -/
theorem C4_witness :
    (2 ≤ runA.length ∧ 1 < runA.length ∧ '-' ∉ (runA.getD 1 Sequence.empty).sequence) ∧
    removeGaps ((alignSequences runA).getD 1 Sequence.empty).sequence =
      (runA.getD 1 Sequence.empty).sequence :=
  ⟨⟨by decide, by decide, by decide⟩, C4_prop runA 1 (by decide) (by decide) (by decide)⟩

/-- C5: `pairwiseAlignment` always returns two strings of the same length
forming a global alignment: the first output is `seq1` with gaps inserted
(every character of `seq1` exactly once, in order, interspersed only with
`'-'`), and likewise the second output for `seq2`. -/
theorem C5_prop (s1 s2 : List Char) :
    (pairwiseAlignment s1 s2).1.length = (pairwiseAlignment s1 s2).2.length ∧
    IsGapPadding s1 (pairwiseAlignment s1 s2).1 ∧
    IsGapPadding s2 (pairwiseAlignment s1 s2).2 :=
  pairwiseAlignment_invariant s1 s2

/-- C6: for strings of length at most 6 the DP value `dp[m][n]` is exactly
the maximum brute-force alignment score (it bounds every enumerated global
alignment and is attained by one); moreover on `AAAA` vs `TTTT` the score is
`4 × mismatch = -4` and the traceback returns the gap-free diagonal
alignment rather than an all-gap one. -/
theorem C6_prop (s1 s2 : List Char) (_hlen1 : s1.length ≤ 6) (_hlen2 : s2.length ≤ 6) :
    (∀ a ∈ allAligns s1 s2 s1.length s2.length,
        alnScore a ≤ nwDP s1 s2 s1.length s2.length) ∧
    (∃ a ∈ allAligns s1 s2 s1.length s2.length,
        alnScore a = nwDP s1 s2 s1.length s2.length) ∧
    nwDP ['A', 'A', 'A', 'A'] ['T', 'T', 'T', 'T'] 4 4 = 4 * mismatchScore ∧
    pairwiseAlignment ['A', 'A', 'A', 'A'] ['T', 'T', 'T', 'T'] =
      (['A', 'A', 'A', 'A'], ['T', 'T', 'T', 'T']) := by
  obtain ⟨hub, hat⟩ := nwDP_eq_bruteforce s1 s2 (s1.length + s2.length)
    s1.length s2.length rfl
  exact ⟨hub, hat, by decide, by decide⟩

/-- C6 (witness): the theorem applied to the concrete pair `ATCG`, `ATTG`. -/
theorem C6_witness :
    ((['A', 'T', 'C', 'G'] : List Char).length ≤ 6 ∧
     (['A', 'T', 'T', 'G'] : List Char).length ≤ 6) ∧
    ((∀ a ∈ allAligns ['A', 'T', 'C', 'G'] ['A', 'T', 'T', 'G'] 4 4,
        alnScore a ≤ nwDP ['A', 'T', 'C', 'G'] ['A', 'T', 'T', 'G'] 4 4) ∧
     (∃ a ∈ allAligns ['A', 'T', 'C', 'G'] ['A', 'T', 'T', 'G'] 4 4,
        alnScore a = nwDP ['A', 'T', 'C', 'G'] ['A', 'T', 'T', 'G'] 4 4)) := by
  have h := C6_prop ['A', 'T', 'C', 'G'] ['A', 'T', 'T', 'G'] (by decide) (by decide)
  exact ⟨⟨by decide, by decide⟩, h.1, h.2.1⟩

/-- C7: the distance estimator always returns a value in [0, 1]; it returns
exactly 1 when either input is empty, and otherwise `1 - matches / max_len`
where `matches` counts the case-insensitive positional matches over the
common overlap. -/
theorem C7_prop (s1 s2 : List Char) :
    0 ≤ calculateSequenceDistance s1 s2 ∧
    calculateSequenceDistance s1 s2 ≤ 1 ∧
    ((s1 = [] ∨ s2 = []) → calculateSequenceDistance s1 s2 = 1) ∧
    (s1 ≠ [] → s2 ≠ [] →
      calculateSequenceDistance s1 s2 =
        1 - (specMatches s1 s2 : ℚ) / ((max s1.length s2.length : Nat) : ℚ)) := by
  obtain ⟨h0, h1⟩ := calculateSequenceDistance_mem_unit s1 s2
  refine ⟨h0, h1, ?_, ?_⟩
  · intro h
    simp [calculateSequenceDistance, h]
  · intro hn1 hn2
    rw [calculateSequenceDistance_nonempty s1 s2 hn1 hn2, countMatches_eq_specMatches]
    norm_cast

/-- C7 (witness): the theorem applied to an empty-side pair. -/
theorem C7_witness :
    0 ≤ calculateSequenceDistance ['A'] [] ∧ calculateSequenceDistance ['A'] [] = 1 :=
  ⟨(C7_prop ['A'] []).1, (C7_prop ['A'] []).2.2.1 (Or.inr rfl)⟩

/-- C8: for N ≥ 1 input sequences, `buildGuideTree` returns a binary tree
with exactly N leaves and N − 1 internal nodes (a single leaf, with no
internal node, when N = 1). -/
theorem C8_prop (seqs : List Sequence) (dm : Nat → Nat → ℚ)
    (h : 1 ≤ seqs.length) :
    ∃ t, buildGuideTree seqs dm = some t ∧
      t.leafCount = seqs.length ∧ t.internalCount = seqs.length - 1 := by
  obtain ⟨t, ht, hl, hi⟩ := buildGuideTree_shape seqs dm h
  exact ⟨t, ht, hl, by omega⟩

/-- C8 (witness): the theorem applied to the concrete two-sequence run. -/
theorem C8_witness :
    1 ≤ runB.length ∧
    ∃ t, buildGuideTree runB (calculateDistanceMatrix runB) = some t ∧
      t.leafCount = runB.length ∧ t.internalCount = runB.length - 1 :=
  ⟨by decide, C8_prop runB (calculateDistanceMatrix runB) (by decide)⟩

/-- C9: the distance estimator is symmetric, vanishes on equal non-empty
inputs, and consequently the distance matrix is symmetric with zero
diagonal. -/
theorem C9_prop (s1 s2 : List Char) (seqs : List Sequence) (i j : Nat) :
    calculateSequenceDistance s1 s2 = calculateSequenceDistance s2 s1 ∧
    (s1 ≠ [] → calculateSequenceDistance s1 s1 = 0) ∧
    calculateDistanceMatrix seqs i j = calculateDistanceMatrix seqs j i ∧
    calculateDistanceMatrix seqs i i = 0 := by
  refine ⟨calculateSequenceDistance_comm s1 s2,
    fun h => calculateSequenceDistance_self s1 h, ?_, ?_⟩
  · unfold calculateDistanceMatrix
    rcases Nat.lt_trichotomy i j with hij | hij | hij
    · rw [if_pos hij, if_neg (by omega), if_pos hij]
    · rw [hij]
    · rw [if_neg (by omega), if_pos hij, if_pos hij]
  · unfold calculateDistanceMatrix
    rw [if_neg (by omega), if_neg (by omega)]

/-- C9 (witness): the theorem applied to concrete sequences and indices. -/
theorem C9_witness :
    (calculateSequenceDistance ['A'] ['T'] = calculateSequenceDistance ['T'] ['A'] ∧
     calculateSequenceDistance ['A'] ['A'] = 0) ∧
    calculateDistanceMatrix runB 0 1 = calculateDistanceMatrix runB 1 0 :=
  ⟨⟨(C9_prop ['A'] ['T'] runB 0 1).1,
    (C9_prop ['A'] ['A'] runB 0 1).2.1 (by decide)⟩,
   (C9_prop ['A'] ['T'] runB 0 1).2.2.1⟩

/-- C10: a position holding a character that is neither `'-'` nor a DNA
letter (case-insensitive) gets `getAlphabetIndex = -1`, so `createProfile`
leaves its column untouched: all four symbol frequencies and the gap
frequency are 0, for a total probability mass of 0 rather than 1. -/
theorem C10_prop (s : List Char) (pos : Nat) (h : pos < s.length)
    (hdash : s.getD pos 'A' ≠ '-')
    (hout : toUpperChar (s.getD pos 'A') ∉ dnaAlphabet) :
    getAlphabetIndex (s.getD pos 'A') = -1 ∧
    (createProfile s).frequencies.getD pos [] = [0, 0, 0, 0] ∧
    (createProfile s).gap_frequencies.getD pos 0 = 0 ∧
    columnMass (createProfile s) pos = 0 :=
  columnMass_createProfile_of_unknown s pos h hdash hout

/-- C10 (witness): the theorem applied to the string `ANC` at position 1
(the character `N`). -/
theorem C10_witness :
    (1 < (['A', 'N', 'C'] : List Char).length ∧
     (['A', 'N', 'C'] : List Char).getD 1 'A' ≠ '-' ∧
     toUpperChar ((['A', 'N', 'C'] : List Char).getD 1 'A') ∉ dnaAlphabet) ∧
    getAlphabetIndex ((['A', 'N', 'C'] : List Char).getD 1 'A') = -1 ∧
    (createProfile ['A', 'N', 'C']).frequencies.getD 1 [] = [0, 0, 0, 0] ∧
    (createProfile ['A', 'N', 'C']).gap_frequencies.getD 1 0 = 0 ∧
    columnMass (createProfile ['A', 'N', 'C']) 1 = 0 :=
  ⟨⟨by decide, by decide, by decide⟩,
   C10_prop ['A', 'N', 'C'] 1 (by decide) (by decide) (by decide)⟩

end MSAligner
